import Mathlib

/-!
Verification of the weight save/load logic of `Weight_Sync_Manager.py`.

The addon persists per-vertex skin-weight assignments of a mesh object to a
JSON document and restores them.  We embed the data model and the two core
functions `save_weights` (lines 28-89) and `load_weights` (lines 91-133),
together with the Save operator's `execute` (lines 160-172), as executable
Lean definitions, and prove the documented properties about them.

Modelling conventions:
* Weights are exact rationals (`ℚ`).  The Python code copies weight values
  verbatim — it compares them to `0.0` and takes `min`/`max`, but performs no
  arithmetic on them — so the embedding is exact.
* Python dicts keyed by vertex index or group name are association lists in
  insertion order; `dictInsert` reproduces dict assignment (update the first
  occurrence in place, else append) and `lookupD` reproduces dict/collection
  lookup (first match).
* File I/O (`open`, `json.dump`, `json.load`, `os.path.exists`) is external
  to the data-transfer logic: `save_weights` takes an optional I/O failure to
  model the `try`/`except` wrapping of the write, and `load_weights` consumes
  an already-parsed document (`FileNotFound` / `ParseError` are upstream of
  everything the properties below speak about).
* The host (Blender) guarantees that vertex-group names on one object are
  unique and that stored group entries refer to existing vertices; theorems
  that need these facts take them as explicit well-formedness hypotheses.
-/

/-- Weights are exact rationals; the source manipulates them only by
comparison with `0.0` and by `min`/`max`. -/
abbrev Weight := ℚ

/-- Dict/collection lookup: first entry with the given key, if any. -/
def lookupD {α β : Type} [BEq α] (l : List (α × β)) (k : α) : Option β :=
  (l.find? (fun p => p.1 == k)).map (fun p => p.2)

/-- Python dict assignment `d[k] = v`: overwrite the first entry with key `k`
in place, otherwise append a new entry. -/
def dictInsert {α β : Type} [BEq α] (l : List (α × β)) (k : α) (v : β) :
    List (α × β) :=
  match l with
  | [] => [(k, v)]
  | (k1, v1) :: rest =>
    if k1 == k then (k, v) :: rest else (k1, v1) :: dictInsert rest k v

/-- A vertex group: a named partial assignment of weights to vertex indices.
`g.weight(idx)` raising `RuntimeError` for a vertex not in the group is
modelled by the lookup returning `none`. -/
structure VGroup where
  name : String
  weights : List (Nat × Weight)
  deriving Repr, DecidableEq

/-- The weight group `g` assigns to vertex `v`, if the vertex is in the
group (`g.weight(v)` of the host API, with `RuntimeError` as `none`). -/
def VGroup.weightAt (g : VGroup) (v : Nat) : Option Weight :=
  lookupD g.weights v

/-- A mesh object.  Of `obj.data.vertices` only the length and the indices
`0, …, length-1` are ever used, so the vertex list is kept as a count;
`obj.vertex_groups` is the ordered group collection. -/
structure MeshObj where
  name : String
  numVertices : Nat
  vertexGroups : List VGroup
  deriving Repr, DecidableEq

/-- Weight lookup over a group list: first group with the given name, then
its weight for the vertex. -/
def groupsWeight (gs : List VGroup) (gname : String) (v : Nat) : Option Weight :=
  match gs.find? (fun g => g.name == gname) with
  | some g => g.weightAt v
  | none => none

/-- The weight the object assigns to vertex `v` in the group named `gname`:
lookup of `obj.vertex_groups[gname]` (first group with that name), then the
group's weight for `v`. -/
def MeshObj.weightOf (obj : MeshObj) (gname : String) (v : Nat) : Option Weight :=
  groupsWeight obj.vertexGroups gname v

/-- The validation summary block of the document (lines 72-76):
`weight_range` is the pair (min_weight, max_weight). -/
structure DocValidation where
  vertices_with_weights : Nat
  groups_with_weights : List String
  weight_range : Weight × Weight
  deriving Repr, DecidableEq

/-- The persisted WeightDocument (the JSON file, parsed).  `vertex_groups`
maps vertex indices to per-group weight dicts, in insertion order. -/
structure WeightDocument where
  object_name : String
  vertex_count : Nat
  group_names : List String
  vertex_groups : List (Nat × List (String × Weight))
  validation : DocValidation
  deriving Repr, DecidableEq

/-- The weight the document records for vertex `v` in group `gname`, if any. -/
def WeightDocument.weightOf (doc : WeightDocument) (gname : String) (v : Nat) :
    Option Weight :=
  match lookupD doc.vertex_groups v with
  | some gws => lookupD gws gname
  | none => none

/-- Inner loop of the save scan (lines 43-52) for one vertex: iterate the
object's groups in order; a readable weight strictly greater than `0.0` is
written into the per-vertex dict under the group's name, anything else is
skipped. -/
def vertexWeightsAux (v : Nat) (groups : List VGroup)
    (acc : List (String × Weight)) : List (String × Weight) :=
  match groups with
  | [] => acc
  | g :: rest =>
    match g.weightAt v with
    | some w =>
      vertexWeightsAux v rest (if 0 < w then dictInsert acc g.name w else acc)
    | none => vertexWeightsAux v rest acc

/-- The `v_weights` dict the save scan builds for vertex `v` (lines 43-52). -/
def vertexWeights (obj : MeshObj) (v : Nat) : List (String × Weight) :=
  vertexWeightsAux v obj.vertexGroups []

/-- The sparse `vertex_groups` map of the document (lines 42-56): one entry
per vertex whose dict is non-empty, in vertex order. -/
def collectVertexGroups (obj : MeshObj) : List (Nat × List (String × Weight)) :=
  (List.range obj.numVertices).filterMap (fun v =>
    let vw := vertexWeights obj v
    if vw.isEmpty then none else some (v, vw))

/-- One step of the validation pass (lines 66-70); the state is
(groups_with_weights, max_weight, min_weight).  The Python `set` of group
names is modelled as a duplicate-free list in first-insertion order. -/
def validationStep (st : List String × Weight × Weight) (gw : String × Weight) :
    List String × Weight × Weight :=
  (if st.1.contains gw.1 then st.1 else st.1 ++ [gw.1],
   max st.2.1 gw.2, min st.2.2 gw.2)

/-- The validation summary (lines 58-76): a second pass over the collected
sparse map, starting from max_weight = 0.0 and min_weight = 1.0. -/
def buildValidation (entries : List (Nat × List (String × Weight))) :
    DocValidation :=
  let st := entries.foldl (fun st e => e.2.foldl validationStep st) ([], 0, 1)
  { vertices_with_weights := entries.length
    groups_with_weights := st.1
    weight_range := (st.2.2, st.2.1) }

/-- The document `save_weights` builds for a mesh (lines 34-76). -/
def buildDocument (obj : MeshObj) : WeightDocument :=
  { object_name := obj.name
    vertex_count := obj.numVertices
    group_names := obj.vertexGroups.map (fun g => g.name)
    vertex_groups := collectVertexGroups obj
    validation := buildValidation (collectVertexGroups obj) }

/-- save_weights (lines 28-89).  `obj = none` models a null or non-mesh
active object ("No valid mesh selected"); `ioError` models an exception
raised by the file write (line 79), which the `try`/`except` turns into the
"Error saving weights: …" message.  On success the written document is
returned. -/
def save_weights (obj : Option MeshObj) (ioError : Option String) :
    Except String WeightDocument :=
  match obj with
  | none => Except.error "No valid mesh selected"
  | some o =>
    match ioError with
    | some e => Except.error ("Error saving weights: " ++ e)
    | none => Except.ok (buildDocument o)

/-- Outcome of `load_weights` on a parsed document. -/
inductive LoadResult where
  /-- Lines 104-105: the document's vertex_count differs from the mesh's. -/
  | vertexCountMismatch (fileCount meshCount : Nat)
  /-- Lines 132-133: an exception during weight application — in the model,
  the `KeyError` from `obj.vertex_groups[group_name]` for a name that was
  never created; carries the offending name. -/
  | loadError (groupName : String)
  /-- Success, carrying the `vertices_affected` counter (line 117-125). -/
  | ok (verticesAffected : Nat)
  deriving Repr, DecidableEq

/-- Lines 107-109: remove every existing vertex group of the object.  The
loop drives the host collection primitive `vertex_groups.remove`; per the
documented contract of this step (spec §4.2, "removes all existing vertex
groups") the collection is left empty. -/
def clearGroups (obj : MeshObj) : MeshObj :=
  { obj with vertexGroups := [] }

/-- Lines 111-114: create a group for every name in `group_names`, in order,
skipping names already present (host collection membership is by name; `new`
appends an empty group). -/
def createGroups (obj : MeshObj) (names : List String) : MeshObj :=
  names.foldl
    (fun o gname =>
      if o.vertexGroups.any (fun g => g.name == gname) then o
      else { o with vertexGroups := o.vertexGroups ++ [⟨gname, []⟩] })
    obj

/-- `vgroup.add([idx], weight, REPLACE)` (line 124): set the group's weight
for the vertex, overwriting an existing assignment. -/
def VGroup.setWeight (g : VGroup) (v : Nat) (w : Weight) : VGroup :=
  { g with weights := dictInsert g.weights v w }

/-- Update the first group with the given name (host collection indexing by
key returns the first match). -/
def updateFirstGroup (gs : List VGroup) (gname : String) (v : Nat) (w : Weight) :
    List VGroup :=
  match gs with
  | [] => []
  | g :: rest =>
    if g.name == gname then g.setWeight v w :: rest
    else g :: updateFirstGroup rest gname v w

/-- `vgroup = obj.vertex_groups[group_name]; vgroup.add([idx], w, REPLACE)`
(lines 123-124): `none` models the `KeyError` when no group has that name. -/
def applyGroupWeight (obj : MeshObj) (gname : String) (v : Nat) (w : Weight) :
    Option MeshObj :=
  if obj.vertexGroups.any (fun g => g.name == gname) then
    some { obj with vertexGroups := updateFirstGroup obj.vertexGroups gname v w }
  else none

/-- Inner application loop (lines 121-125) over one vertex's dict: weights
strictly greater than `0.0` are applied and counted; a `KeyError` aborts the
whole function, and the error value carries the mesh state at the raise
point (mutations already made are kept). -/
def applyVertexWeights (obj : MeshObj) (v : Nat) (gws : List (String × Weight))
    (count : Nat) : Except (String × MeshObj) (MeshObj × Nat) :=
  match gws with
  | [] => Except.ok (obj, count)
  | (gname, w) :: rest =>
    if 0 < w then
      match applyGroupWeight obj gname v w with
      | some o2 => applyVertexWeights o2 v rest (count + 1)
      | none => Except.error (gname, obj)
    else applyVertexWeights obj v rest count

/-- Outer application loop (lines 118-125): entries whose vertex index is
not below the mesh's current vertex count are skipped silently. -/
def applyAllWeights (obj : MeshObj) (n : Nat)
    (entries : List (Nat × List (String × Weight))) (count : Nat) :
    Except (String × MeshObj) (MeshObj × Nat) :=
  match entries with
  | [] => Except.ok (obj, count)
  | (v, gws) :: rest =>
    if v < n then
      match applyVertexWeights obj v gws count with
      | Except.ok (o2, c2) => applyAllWeights o2 n rest c2
      | Except.error e => Except.error e
    else applyAllWeights obj n rest count

/-- load_weights (lines 91-133) on a parsed document.  Returns the outcome
together with the (possibly mutated) mesh: a failure during weight
application keeps every mutation made before the raise. -/
def load_weights (obj : MeshObj) (doc : WeightDocument) :
    LoadResult × MeshObj :=
  if obj.numVertices ≠ doc.vertex_count then
    (LoadResult.vertexCountMismatch doc.vertex_count obj.numVertices, obj)
  else
    match applyAllWeights (createGroups (clearGroups obj) doc.group_names)
        obj.numVertices doc.vertex_groups 0 with
    | Except.ok (o3, affected) => (LoadResult.ok affected, o3)
    | Except.error (gname, o3) => (LoadResult.loadError gname, o3)

/-- The per-scene WeightSyncSettings record (lines 15-26). -/
structure WeightSyncSettings where
  weight_file : String
  is_active : Bool
  deriving Repr, DecidableEq

/-- A message surfaced through `self.report` (ERROR or INFO). -/
inductive Report where
  | error (msg : String)
  | info (msg : String)
  deriving Repr, DecidableEq

/-- WEIGHTSYNC_OT_save.execute (lines 160-172): run `save_weights`; on
failure report the error and leave the settings alone, on success store the
chosen path, mark syncing active and report success. -/
def save_execute (settings : WeightSyncSettings) (obj : Option MeshObj)
    (filepath : String) (ioError : Option String) :
    WeightSyncSettings × Report :=
  match save_weights obj ioError with
  | Except.error e => (settings, Report.error e)
  | Except.ok _ =>
    ({ weight_file := filepath, is_active := true },
     Report.info ("Weights saved to " ++ filepath))

/-- The rational 1/2, built in normal form so that concrete computations
reduce in the kernel; equals the literal 0.5 (see halfVal_eq). -/
def halfVal : Weight := Rat.mk' 1 2

/-- Number of weight applications the inner loop performs on a document's
entries: one per (vertex, group) pair with a strictly positive weight at an
in-bounds vertex index.  Used to characterise the `vertices_affected`
counter. -/
def countApplied (n : Nat) : List (Nat × List (String × Weight)) → Nat
  | [] => 0
  | e :: rest =>
    (if e.1 < n then e.2.countP (fun gw => decide (0 < gw.2)) else 0) +
      countApplied n rest

/-- Number of distinct vertices of the mesh that carry at least one weight
assignment in some vertex group. -/
def touchedCount (obj : MeshObj) : Nat :=
  ((List.range obj.numVertices).filter
    (fun v => obj.vertexGroups.any (fun g => (g.weightAt v).isSome))).length

/-- Example mesh of the spec (§8): 3 vertices, one group "Arm", vertex 0 at
weight 0.5, vertex 1 stored at weight 0.0, vertex 2 absent from the group. -/
def armMesh : MeshObj := ⟨"Cube", 3, [⟨"Arm", [(0, halfVal), (1, 0)]⟩]⟩

/-- An import target of the same vertex count as armMesh but with an
unrelated pre-existing vertex group. -/
def armTarget : MeshObj := ⟨"CubeCopy", 3, [⟨"Old", [(2, 1)]⟩]⟩

/-- A one-vertex mesh with one unrelated pre-existing group. -/
def oneVertexMesh : MeshObj := ⟨"M", 1, [⟨"Old", []⟩]⟩

/-- A document for one vertex giving two groups weight 1 on vertex 0. -/
def twoGroupDoc : WeightDocument :=
  ⟨"M", 1, ["A", "B"], [(0, [("A", 1), ("B", 1)])], ⟨1, ["A", "B"], (1, 1)⟩⟩

/-- A document whose only weight entry sits at the out-of-bounds vertex
index 5 and names the group "Ghost", which is not in group_names. -/
def ghostSkipDoc : WeightDocument :=
  ⟨"M", 1, ["A"], [(5, [("Ghost", 1)])], ⟨1, ["Ghost"], (1, 1)⟩⟩

/-- A document referencing the absent group "Ghost" at the in-bounds vertex
index 0 with positive weight. -/
def ghostHitDoc : WeightDocument :=
  ⟨"M", 1, ["A"], [(0, [("Ghost", 1)])], ⟨1, ["Ghost"], (1, 1)⟩⟩

/-- A two-vertex mesh with no groups. -/
def twoVertexMesh : MeshObj := ⟨"M", 2, []⟩

/-- A document for two vertices whose entries hit vertex 0 (in bounds) and
vertex 5 (out of bounds). -/
def oobDoc : WeightDocument :=
  ⟨"M", 2, ["A"], [(0, [("A", 1)]), (5, [("A", 1)])], ⟨2, ["A"], (1, 1)⟩⟩

/-- A starting settings record with a stale path and syncing inactive. -/
def settings0 : WeightSyncSettings := ⟨"old.json", false⟩

theorem halfVal_eq : halfVal = (0.5 : ℚ) := by
  rw [show (0.5 : ℚ) = 1 / 2 by norm_num]
  rw [halfVal, Rat.mk'_eq_divInt]
  norm_num [Rat.divInt_eq_div]

section AssocLemmas

set_option linter.unusedSectionVars false

variable {α β : Type} [BEq α] [LawfulBEq α] [DecidableEq α]

theorem lookupD_cons (p : α × β) (l : List (α × β)) (k : α) :
    lookupD (p :: l) k = if p.1 == k then some p.2 else lookupD l k := by
  by_cases h : p.1 == k <;> simp [lookupD, List.find?, h]

theorem lookupD_eq_some_mem {l : List (α × β)} {k : α} {b : β}
    (h : lookupD l k = some b) : (k, b) ∈ l := by
  induction l with
  | nil => simp [lookupD] at h
  | cons p rest ih =>
    obtain ⟨k1, v1⟩ := p
    rw [lookupD_cons] at h
    by_cases hk : k1 == k
    · have hk2 : k1 = k := eq_of_beq hk
      simp only [hk2, hk, if_true, Option.some.injEq] at h ⊢
      subst hk2
      simp only [beq_self_eq_true, if_true, Option.some.injEq] at h
      rw [← h]
      exact List.mem_cons_self _ _
    · simp only [hk, Bool.false_eq_true, if_false] at h
      exact List.mem_cons_of_mem _ (ih h)

theorem lookupD_eq_none_iff {l : List (α × β)} {k : α} :
    lookupD l k = none ↔ ∀ b, (k, b) ∉ l := by
  induction l with
  | nil => simp [lookupD]
  | cons p rest ih =>
    obtain ⟨k1, v1⟩ := p
    rw [lookupD_cons]
    by_cases hk : k1 == k
    · have hk2 : k1 = k := eq_of_beq hk
      subst hk2
      simp only [beq_self_eq_true, if_true]
      constructor
      · intro h; cases h
      · intro h
        exact absurd (List.mem_cons_self (k1, v1) rest) (h v1)
    · have hk2 : ¬ k1 = k := by intro h; exact hk (by simp [h])
      simp only [hk, Bool.false_eq_true, if_false, ih]
      constructor
      · intro h b hb
        rcases List.mem_cons.mp hb with h1 | h1
        · exact absurd (congrArg Prod.fst h1).symm hk2
        · exact h b h1
      · intro h b hb
        exact h b (List.mem_cons_of_mem _ hb)

theorem lookupD_of_mem_nodup {l : List (α × β)} {k : α} {b : β}
    (hnd : (l.map Prod.fst).Nodup) (h : (k, b) ∈ l) : lookupD l k = some b := by
  induction l with
  | nil => cases h
  | cons p rest ih =>
    rw [List.map_cons, List.nodup_cons] at hnd
    rw [lookupD_cons]
    rcases List.mem_cons.mp h with h1 | h1
    · rw [← h1]
      simp
    · have hk : ¬((p.1 == k) = true) := by
        simp only [beq_iff_eq]
        intro he
        exact hnd.1 (he ▸ List.mem_map.mpr ⟨(k, b), h1, rfl⟩)
      simp only [hk, Bool.false_eq_true, if_false]
      exact ih hnd.2 h1

theorem lookupD_dictInsert (l : List (α × β)) (k : α) (v : β) (k2 : α) :
    lookupD (dictInsert l k v) k2 = if k2 = k then some v else lookupD l k2 := by
  induction l with
  | nil =>
    simp only [dictInsert]
    rw [lookupD_cons]
    by_cases h : k2 = k
    · subst h; simp
    · have hb : ¬((k == k2) = true) := by
        simp only [beq_iff_eq]; intro he; exact h he.symm
      simp [hb, h, lookupD]
  | cons p rest ih =>
    obtain ⟨k1, v1⟩ := p
    simp only [dictInsert]
    by_cases h1 : k1 == k
    · have h1e : k1 = k := eq_of_beq h1
      subst h1e
      simp only [beq_self_eq_true, if_true]
      rw [lookupD_cons, lookupD_cons]
      by_cases h2 : k2 = k1
      · subst h2; simp
      · have hb : ¬((k1 == k2) = true) := by
          simp only [beq_iff_eq]; intro he; exact h2 he.symm
        simp [hb, h2]
    · simp only [h1, Bool.false_eq_true, if_false]
      rw [lookupD_cons, lookupD_cons]
      by_cases h2 : k1 == k2
      · have h2e : k1 = k2 := eq_of_beq h2
        have hne : ¬ k2 = k := by
          intro he; exact h1 (by simp [h2e, he])
        simp [h2, hne]
      · simp [h2, ih]

theorem mem_dictInsert {l : List (α × β)} {k : α} {v : β} {p : α × β}
    (h : p ∈ dictInsert l k v) : p = (k, v) ∨ p ∈ l := by
  induction l with
  | nil =>
    simp only [dictInsert] at h
    rcases List.mem_cons.mp h with h1 | h1
    · exact Or.inl h1
    · cases h1
  | cons q rest ih =>
    obtain ⟨k1, v1⟩ := q
    simp only [dictInsert] at h
    by_cases h1 : k1 == k
    · simp only [h1, if_true] at h
      rcases List.mem_cons.mp h with h2 | h2
      · exact Or.inl h2
      · exact Or.inr (List.mem_cons_of_mem _ h2)
    · simp only [h1, Bool.false_eq_true, if_false] at h
      rcases List.mem_cons.mp h with h2 | h2
      · exact Or.inr (h2 ▸ List.mem_cons_self _ _)
      · rcases ih h2 with h3 | h3
        · exact Or.inl h3
        · exact Or.inr (List.mem_cons_of_mem _ h3)

theorem mem_keys_dictInsert {l : List (α × β)} {k : α} {v : β} {a : α} :
    a ∈ (dictInsert l k v).map Prod.fst ↔ a = k ∨ a ∈ l.map Prod.fst := by
  induction l with
  | nil => simp [dictInsert]
  | cons q rest ih =>
    obtain ⟨k1, v1⟩ := q
    simp only [dictInsert]
    by_cases h1 : k1 == k
    · have h1e : k1 = k := eq_of_beq h1
      subst h1e
      simp only [h1, if_true, List.map_cons, List.mem_cons]
      tauto
    · simp only [h1, Bool.false_eq_true, if_false, List.map_cons, List.mem_cons, ih]
      tauto

theorem nodup_keys_dictInsert {l : List (α × β)} {k : α} {v : β}
    (h : (l.map Prod.fst).Nodup) : ((dictInsert l k v).map Prod.fst).Nodup := by
  induction l with
  | nil => simp [dictInsert]
  | cons q rest ih =>
    obtain ⟨k1, v1⟩ := q
    rw [List.map_cons, List.nodup_cons] at h
    simp only [dictInsert]
    by_cases h1 : k1 == k
    · simp only [h1, if_true, List.map_cons, List.nodup_cons]
      exact ⟨eq_of_beq h1 ▸ h.1, h.2⟩
    · simp only [h1, Bool.false_eq_true, if_false, List.map_cons, List.nodup_cons]
      constructor
      · rw [mem_keys_dictInsert]
        rintro (h2 | h2)
        · exact h1 (by simp [h2])
        · exact h.1 h2
      · exact ih h.2

end AssocLemmas

section SaveLemmas

theorem vertexWeightsAux_pos (v : Nat) :
    ∀ (groups : List VGroup) (acc : List (String × Weight)),
      (∀ p ∈ acc, 0 < p.2) → ∀ p ∈ vertexWeightsAux v groups acc, 0 < p.2 := by
  intro groups
  induction groups with
  | nil => intro acc hacc p hp; exact hacc p hp
  | cons g rest ih =>
    intro acc hacc p hp
    cases hw : g.weightAt v with
    | none =>
      simp only [vertexWeightsAux, hw] at hp
      exact ih acc hacc p hp
    | some w =>
      simp only [vertexWeightsAux, hw] at hp
      by_cases h0 : 0 < w
      · rw [if_pos h0] at hp
        refine ih _ ?_ p hp
        intro q hq
        rcases mem_dictInsert hq with h1 | h1
        · rw [h1]; exact h0
        · exact hacc q h1
      · rw [if_neg h0] at hp
        exact ih acc hacc p hp

theorem vertexWeightsAux_keys (v : Nat) :
    ∀ (groups : List VGroup) (acc : List (String × Weight)) (a : String),
      a ∈ (vertexWeightsAux v groups acc).map Prod.fst →
      a ∈ acc.map Prod.fst ∨ a ∈ groups.map VGroup.name := by
  intro groups
  induction groups with
  | nil => intro acc a ha; exact Or.inl ha
  | cons g rest ih =>
    intro acc a ha
    have step : ∀ acc2 : List (String × Weight),
        a ∈ (vertexWeightsAux v rest acc2).map Prod.fst →
        a ∈ acc2.map Prod.fst ∨ a ∈ (g :: rest).map VGroup.name := by
      intro acc2 h2
      rcases ih acc2 a h2 with h | h
      · exact Or.inl h
      · exact Or.inr (List.mem_cons_of_mem _ h)
    cases hw : g.weightAt v with
    | none =>
      simp only [vertexWeightsAux, hw] at ha
      exact step acc ha
    | some w =>
      simp only [vertexWeightsAux, hw] at ha
      by_cases h0 : 0 < w
      · rw [if_pos h0] at ha
        rcases step _ ha with h | h
        · rcases mem_keys_dictInsert.mp h with h1 | h1
          · exact Or.inr (by rw [List.map_cons, h1]; exact List.mem_cons_self _ _)
          · exact Or.inl h1
        · exact Or.inr h
      · rw [if_neg h0] at ha
        exact step acc ha

theorem vertexWeightsAux_nodup (v : Nat) :
    ∀ (groups : List VGroup) (acc : List (String × Weight)),
      (acc.map Prod.fst).Nodup →
      ((vertexWeightsAux v groups acc).map Prod.fst).Nodup := by
  intro groups
  induction groups with
  | nil => intro acc h; exact h
  | cons g rest ih =>
    intro acc h
    cases hw : g.weightAt v with
    | none => simp only [vertexWeightsAux, hw]; exact ih acc h
    | some w =>
      simp only [vertexWeightsAux, hw]
      by_cases h0 : 0 < w
      · rw [if_pos h0]; exact ih _ (nodup_keys_dictInsert h)
      · rw [if_neg h0]; exact ih acc h

theorem vertexWeightsAux_of_no_pos (v : Nat) :
    ∀ (groups : List VGroup) (acc : List (String × Weight)),
      (∀ g ∈ groups, ∀ w, g.weightAt v = some w → ¬ 0 < w) →
      vertexWeightsAux v groups acc = acc := by
  intro groups
  induction groups with
  | nil => intro acc _; rfl
  | cons g rest ih =>
    intro acc h
    cases hw : g.weightAt v with
    | none =>
      simp only [vertexWeightsAux, hw]
      exact ih acc (fun g2 hg2 => h g2 (List.mem_cons_of_mem _ hg2))
    | some w =>
      simp only [vertexWeightsAux, hw]
      rw [if_neg (h g (List.mem_cons_self _ _) w hw)]
      exact ih acc (fun g2 hg2 => h g2 (List.mem_cons_of_mem _ hg2))

theorem lookupD_vertexWeightsAux (v : Nat) (gname : String) :
    ∀ (groups : List VGroup) (acc : List (String × Weight)),
      (groups.map VGroup.name).Nodup →
      lookupD (vertexWeightsAux v groups acc) gname =
        match groups.find? (fun g => g.name == gname) with
        | some g =>
          match g.weightAt v with
          | some w => if 0 < w then some w else lookupD acc gname
          | none => lookupD acc gname
        | none => lookupD acc gname := by
  intro groups
  induction groups with
  | nil => intro acc _; rfl
  | cons g rest ih =>
    intro acc hnd
    rw [List.map_cons, List.nodup_cons] at hnd
    by_cases hg : g.name == gname
    · have hfind : (g :: rest).find? (fun g2 => g2.name == gname) = some g := by
        simp [List.find?, hg]
      have hrest : rest.find? (fun g2 => g2.name == gname) = none := by
        rw [List.find?_eq_none]
        intro g2 hg2
        simp only [beq_iff_eq]
        intro hcon
        apply hnd.1
        rw [eq_of_beq hg, ← hcon]
        exact List.mem_map.mpr ⟨g2, hg2, rfl⟩
      rw [hfind]
      cases hw : g.weightAt v with
      | none =>
        simp only [vertexWeightsAux, hw]
        rw [ih acc hnd.2, hrest]
      | some w =>
        simp only [vertexWeightsAux, hw]
        by_cases h0 : 0 < w
        · rw [if_pos h0, if_pos h0, ih _ hnd.2, hrest, lookupD_dictInsert]
          rw [if_pos (eq_of_beq hg).symm]
        · rw [if_neg h0, if_neg h0, ih acc hnd.2, hrest]
    · have hfind : (g :: rest).find? (fun g2 => g2.name == gname) =
          rest.find? (fun g2 => g2.name == gname) := by
        simp [List.find?, hg]
      have hne : ¬ gname = g.name := fun he => hg (by simp [he])
      rw [hfind]
      cases hw : g.weightAt v with
      | none =>
        simp only [vertexWeightsAux, hw]
        rw [ih acc hnd.2]
      | some w =>
        simp only [vertexWeightsAux, hw]
        by_cases h0 : 0 < w
        · rw [if_pos h0, ih _ hnd.2]
          simp only [lookupD_dictInsert, if_neg hne]
        · rw [if_neg h0, ih acc hnd.2]

theorem lookupD_vertexWeights (obj : MeshObj) (v : Nat) (gname : String)
    (hnd : (obj.vertexGroups.map VGroup.name).Nodup) :
    lookupD (vertexWeights obj v) gname =
      match obj.weightOf gname v with
      | some w => if 0 < w then some w else none
      | none => none := by
  rw [vertexWeights, lookupD_vertexWeightsAux v gname obj.vertexGroups [] hnd,
    MeshObj.weightOf, groupsWeight]
  cases hf : obj.vertexGroups.find? (fun g => g.name == gname) with
  | none => simp [lookupD]
  | some g =>
    cases hw : g.weightAt v with
    | none => simp [hw, lookupD]
    | some w =>
      by_cases h0 : 0 < w
      · simp [hw, h0]
      · simp [hw, h0, lookupD]

theorem mem_collectVertexGroups {obj : MeshObj}
    {e : Nat × List (String × Weight)} :
    e ∈ collectVertexGroups obj ↔
      e.1 < obj.numVertices ∧ e.2 = vertexWeights obj e.1 ∧ e.2 ≠ [] := by
  obtain ⟨v, gws⟩ := e
  simp only [collectVertexGroups, List.mem_filterMap, List.mem_range]
  constructor
  · rintro ⟨v2, hv2, hfe⟩
    by_cases hemp : (vertexWeights obj v2).isEmpty
    · simp [hemp] at hfe
    · simp only [hemp, Bool.false_eq_true, if_false, Option.some.injEq,
        Prod.mk.injEq] at hfe
      obtain ⟨he1, he2⟩ := hfe
      subst he1
      refine ⟨hv2, he2.symm, ?_⟩
      intro hc
      rw [hc] at he2
      exact hemp (by rw [he2]; rfl)
  · rintro ⟨h1, h2, h3⟩
    refine ⟨v, h1, ?_⟩
    have hemp : (vertexWeights obj v).isEmpty = false := by
      rw [← h2]
      cases gws with
      | nil => exact absurd rfl h3
      | cons p rest => rfl
    simp [hemp, h2]

theorem collectVertexGroups_keys_nodup (obj : MeshObj) :
    ((collectVertexGroups obj).map Prod.fst).Nodup := by
  rw [collectVertexGroups, List.map_filterMap]
  refine List.Nodup.filterMap ?_ (List.nodup_range _)
  intro a a2 b hb hb2
  by_cases h1 : (vertexWeights obj a).isEmpty
  · simp [h1] at hb
  · by_cases h2 : (vertexWeights obj a2).isEmpty
    · simp [h2] at hb2
    · simp at hb hb2
      omega

end SaveLemmas

section LoadLemmas

theorem lookupD_eq_none_of_not_mem_keys {α β : Type} [BEq α] [LawfulBEq α]
    [DecidableEq α] {l : List (α × β)} {k : α} (h : k ∉ l.map Prod.fst) :
    lookupD l k = none :=
  lookupD_eq_none_iff.mpr (fun b hb => h (List.mem_map.mpr ⟨(k, b), hb, rfl⟩))

theorem any_name_of_mem {gs : List VGroup} {gname : String}
    (h : gname ∈ gs.map VGroup.name) : gs.any (fun g => g.name == gname) := by
  simp only [List.any_eq_true]
  obtain ⟨g, hg, he⟩ := List.mem_map.mp h
  exact ⟨g, hg, by simp [he]⟩

theorem mem_of_any_name {gs : List VGroup} {gname : String}
    (h : gs.any (fun g => g.name == gname)) : gname ∈ gs.map VGroup.name := by
  simp only [List.any_eq_true] at h
  obtain ⟨g, hg, he⟩ := h
  exact List.mem_map.mpr ⟨g, hg, eq_of_beq he⟩

theorem setWeight_name (g : VGroup) (v : Nat) (w : Weight) :
    (g.setWeight v w).name = g.name := rfl

theorem weightAt_setWeight (g : VGroup) (v : Nat) (w : Weight) (v2 : Nat) :
    (g.setWeight v w).weightAt v2 = if v2 = v then some w else g.weightAt v2 := by
  simp [VGroup.setWeight, VGroup.weightAt, lookupD_dictInsert]

theorem groupsWeight_cons (g : VGroup) (rest : List VGroup) (gname : String)
    (v : Nat) :
    groupsWeight (g :: rest) gname v =
      if g.name == gname then g.weightAt v else groupsWeight rest gname v := by
  by_cases hg : g.name == gname <;> simp [groupsWeight, List.find?, hg]

theorem updateFirstGroup_names (gname : String) (v : Nat) (w : Weight) :
    ∀ gs : List VGroup,
      (updateFirstGroup gs gname v w).map VGroup.name = gs.map VGroup.name := by
  intro gs
  induction gs with
  | nil => rfl
  | cons g rest ih =>
    simp only [updateFirstGroup]
    by_cases hg : g.name == gname
    · rw [if_pos hg]
      simp [setWeight_name]
    · rw [if_neg hg]
      simp [ih]

theorem groupsWeight_updateFirstGroup (gname : String) (v : Nat) (w : Weight) :
    ∀ (gs : List VGroup), (∃ g ∈ gs, g.name = gname) →
      ∀ (gname2 : String) (v2 : Nat),
      groupsWeight (updateFirstGroup gs gname v w) gname2 v2 =
        if gname2 = gname ∧ v2 = v then some w
        else groupsWeight gs gname2 v2 := by
  intro gs
  induction gs with
  | nil => rintro ⟨g, hg, _⟩; cases hg
  | cons g rest ih =>
    rintro hex gname2 v2
    by_cases hg : g.name == gname
    · simp only [updateFirstGroup, if_pos hg]
      by_cases hg2 : g.name == gname2
      · have he : gname2 = gname := (eq_of_beq hg2).symm.trans (eq_of_beq hg)
        rw [groupsWeight_cons, groupsWeight_cons]
        have hgs : (g.setWeight v w).name == gname2 := by
          rw [setWeight_name]; exact hg2
        rw [if_pos hgs, if_pos hg2, weightAt_setWeight]
        simp [he]
      · have hgs : ¬((g.setWeight v w).name == gname2) := by
          rw [setWeight_name]; exact fun hc => hg2 hc
        have hne : ¬ gname2 = gname := by
          intro he
          exact hg2 (by rw [he]; exact hg)
        rw [groupsWeight_cons, groupsWeight_cons, if_neg hgs, if_neg hg2]
        simp [hne]
    · simp only [updateFirstGroup, if_neg hg]
      have hex2 : ∃ g2 ∈ rest, g2.name = gname := by
        obtain ⟨g2, hg2, he2⟩ := hex
        rcases List.mem_cons.mp hg2 with h1 | h1
        · exact absurd (by rw [h1] at he2; simp [he2]) hg
        · exact ⟨g2, h1, he2⟩
      by_cases hg2 : g.name == gname2
      · have hne : ¬ gname2 = gname := by
          intro he
          exact hg (by rw [← he]; exact hg2)
        rw [groupsWeight_cons, groupsWeight_cons, if_pos hg2, if_pos hg2]
        simp [hne]
      · rw [groupsWeight_cons, groupsWeight_cons, if_neg hg2, if_neg hg2]
        exact ih hex2 gname2 v2

theorem applyGroupWeight_frame {o o2 : MeshObj} {gname : String} {v : Nat}
    {w : Weight} (h : applyGroupWeight o gname v w = some o2) :
    o2.vertexGroups.map VGroup.name = o.vertexGroups.map VGroup.name ∧
    o2.name = o.name ∧ o2.numVertices = o.numVertices := by
  by_cases hc : o.vertexGroups.any (fun g => g.name == gname)
  · rw [applyGroupWeight, if_pos hc, Option.some.injEq] at h
    rw [← h]
    exact ⟨updateFirstGroup_names _ _ _ _, rfl, rfl⟩
  · rw [applyGroupWeight, if_neg hc] at h
    cases h

theorem applyGroupWeight_weightOf {o o2 : MeshObj} {gname : String} {v : Nat}
    {w : Weight} (h : applyGroupWeight o gname v w = some o2)
    (gname2 : String) (v2 : Nat) :
    o2.weightOf gname2 v2 =
      if gname2 = gname ∧ v2 = v then some w else o.weightOf gname2 v2 := by
  by_cases hc : o.vertexGroups.any (fun g => g.name == gname)
  · rw [applyGroupWeight, if_pos hc, Option.some.injEq] at h
    have hex : ∃ g ∈ o.vertexGroups, g.name = gname := by
      simpa only [List.any_eq_true, beq_iff_eq] using hc
    rw [MeshObj.weightOf, MeshObj.weightOf, ← h]
    exact groupsWeight_updateFirstGroup gname v w o.vertexGroups hex gname2 v2
  · rw [applyGroupWeight, if_neg hc] at h
    cases h

theorem applyVertexWeights_frame (v : Nat) :
    ∀ (gws : List (String × Weight)) (o : MeshObj) (c : Nat),
      (∀ o2 c2, applyVertexWeights o v gws c = Except.ok (o2, c2) →
        o2.vertexGroups.map VGroup.name = o.vertexGroups.map VGroup.name ∧
        o2.name = o.name ∧ o2.numVertices = o.numVertices) ∧
      (∀ g2 o2, applyVertexWeights o v gws c = Except.error (g2, o2) →
        o2.vertexGroups.map VGroup.name = o.vertexGroups.map VGroup.name ∧
        o2.name = o.name ∧ o2.numVertices = o.numVertices) := by
  intro gws
  induction gws with
  | nil =>
    intro o c
    constructor
    · intro o2 c2 h
      simp only [applyVertexWeights, Except.ok.injEq, Prod.mk.injEq] at h
      rw [← h.1]
      exact ⟨rfl, rfl, rfl⟩
    · intro g2 o2 h
      simp only [applyVertexWeights] at h
      cases h
  | cons p rest ih =>
    intro o c
    obtain ⟨gname0, w0⟩ := p
    by_cases h0 : 0 < w0
    · cases hap : applyGroupWeight o gname0 v w0 with
      | some o1 =>
        have hstep : applyVertexWeights o v ((gname0, w0) :: rest) c =
            applyVertexWeights o1 v rest (c + 1) := by
          simp only [applyVertexWeights, if_pos h0, hap]
        have hf := applyGroupWeight_frame hap
        constructor
        · intro o2 c2 h
          rw [hstep] at h
          have hr := (ih o1 (c + 1)).1 o2 c2 h
          exact ⟨hr.1.trans hf.1, hr.2.1.trans hf.2.1, hr.2.2.trans hf.2.2⟩
        · intro g2 o2 h
          rw [hstep] at h
          have hr := (ih o1 (c + 1)).2 g2 o2 h
          exact ⟨hr.1.trans hf.1, hr.2.1.trans hf.2.1, hr.2.2.trans hf.2.2⟩
      | none =>
        have hstep : applyVertexWeights o v ((gname0, w0) :: rest) c =
            Except.error (gname0, o) := by
          simp only [applyVertexWeights, if_pos h0, hap]
        constructor
        · intro o2 c2 h
          rw [hstep] at h
          cases h
        · intro g2 o2 h
          rw [hstep] at h
          simp only [Except.error.injEq, Prod.mk.injEq] at h
          rw [← h.2]
          exact ⟨rfl, rfl, rfl⟩
    · have hstep : applyVertexWeights o v ((gname0, w0) :: rest) c =
          applyVertexWeights o v rest c := by
        simp only [applyVertexWeights, if_neg h0]
      constructor
      · intro o2 c2 h
        rw [hstep] at h
        exact (ih o c).1 o2 c2 h
      · intro g2 o2 h
        rw [hstep] at h
        exact (ih o c).2 g2 o2 h

end LoadLemmas

theorem applyVertexWeights_ok_char (v : Nat) :
    ∀ (gws : List (String × Weight)) (o : MeshObj) (c : Nat),
      (∀ gw ∈ gws, 0 < gw.2 → gw.1 ∈ o.vertexGroups.map VGroup.name) →
      (gws.map Prod.fst).Nodup →
      ∃ o2, applyVertexWeights o v gws c =
          Except.ok (o2, c + gws.countP (fun gw => decide (0 < gw.2))) ∧
        ∀ gname v2, o2.weightOf gname v2 =
          match lookupD gws gname with
          | some w => if 0 < w ∧ v2 = v then some w else o.weightOf gname v2
          | none => o.weightOf gname v2 := by
  intro gws
  induction gws with
  | nil =>
    intro o c _ _
    refine ⟨o, by simp [applyVertexWeights], ?_⟩
    intro gname v2
    simp [lookupD]
  | cons p rest ih =>
    intro o c href hnd
    obtain ⟨gname0, w0⟩ := p
    rw [List.map_cons, List.nodup_cons] at hnd
    have hcons : ∀ gname, lookupD ((gname0, w0) :: rest) gname =
        if gname0 == gname then some w0 else lookupD rest gname := by
      intro gname
      rw [lookupD_cons]
    by_cases h0 : 0 < w0
    · have hmem : gname0 ∈ o.vertexGroups.map VGroup.name :=
        href (gname0, w0) (List.mem_cons_self _ _) h0
      have hany := any_name_of_mem hmem
      have hap : applyGroupWeight o gname0 v w0 =
          some { o with
                 vertexGroups := updateFirstGroup o.vertexGroups gname0 v w0 } := by
        rw [applyGroupWeight, if_pos hany]
      have hnames :
          ({ o with
             vertexGroups :=
               updateFirstGroup o.vertexGroups gname0 v w0 } : MeshObj).vertexGroups.map
              VGroup.name = o.vertexGroups.map VGroup.name :=
        (applyGroupWeight_frame hap).1
      have href2 : ∀ gw ∈ rest, 0 < gw.2 →
          gw.1 ∈ ({ o with
                    vertexGroups :=
                      updateFirstGroup o.vertexGroups gname0 v w0 } :
                    MeshObj).vertexGroups.map VGroup.name := by
        intro gw hgw hpos
        rw [hnames]
        exact href gw (List.mem_cons_of_mem _ hgw) hpos
      obtain ⟨o2, heq, hchar⟩ := ih _ (c + 1) href2 hnd.2
      have hcnt : (c + 1) + rest.countP (fun gw => decide (0 < gw.2)) =
          c + ((gname0, w0) :: rest).countP (fun gw => decide (0 < gw.2)) := by
        simp [List.countP_cons, h0]
        omega
      refine ⟨o2, ?_, ?_⟩
      · have hstep : applyVertexWeights o v ((gname0, w0) :: rest) c =
            applyVertexWeights
              { o with vertexGroups := updateFirstGroup o.vertexGroups gname0 v w0 }
              v rest (c + 1) := by
          simp only [applyVertexWeights, if_pos h0, hap]
        rw [hstep, heq, hcnt]
      · intro gname v2
        rw [hchar gname v2, hcons gname]
        by_cases hgg : gname0 == gname
        · have hge : gname0 = gname := eq_of_beq hgg
          subst hge
          rw [if_pos hgg]
          have hnone : lookupD rest gname0 = none :=
            lookupD_eq_none_of_not_mem_keys hnd.1
          rw [hnone]
          simp only [applyGroupWeight_weightOf hap gname0 v2]
          by_cases hv : v2 = v
          · simp [hv, h0]
          · simp [hv, h0]
        · rw [if_neg hgg]
          have hnq : ¬ gname = gname0 := fun he => hgg (by simp [he])
          have hw1 : ({ o with
              vertexGroups :=
                updateFirstGroup o.vertexGroups gname0 v w0 } : MeshObj).weightOf
                gname v2 = o.weightOf gname v2 := by
            rw [applyGroupWeight_weightOf hap gname v2]
            simp [hnq]
          cases hlk : lookupD rest gname with
          | none => exact hw1
          | some w => rw [hw1]
    · have href2 : ∀ gw ∈ rest, 0 < gw.2 →
          gw.1 ∈ o.vertexGroups.map VGroup.name :=
        fun gw hgw => href gw (List.mem_cons_of_mem _ hgw)
      obtain ⟨o2, heq, hchar⟩ := ih o c href2 hnd.2
      have hcnt : rest.countP (fun gw => decide (0 < gw.2)) =
          ((gname0, w0) :: rest).countP (fun gw => decide (0 < gw.2)) := by
        rw [List.countP_cons]
        simp [h0]
      refine ⟨o2, ?_, ?_⟩
      · have hstep : applyVertexWeights o v ((gname0, w0) :: rest) c =
            applyVertexWeights o v rest c := by
          simp only [applyVertexWeights, if_neg h0]
        rw [hstep, heq, ← hcnt]
      · intro gname v2
        rw [hchar gname v2, hcons gname]
        by_cases hgg : gname0 == gname
        · have hge : gname0 = gname := eq_of_beq hgg
          subst hge
          rw [if_pos hgg]
          have hnone : lookupD rest gname0 = none :=
            lookupD_eq_none_of_not_mem_keys hnd.1
          rw [hnone]
          simp [h0]
        · rw [if_neg hgg]

theorem applyAllWeights_frame (n : Nat) :
    ∀ (entries : List (Nat × List (String × Weight))) (o : MeshObj) (c : Nat),
      (∀ o2 c2, applyAllWeights o n entries c = Except.ok (o2, c2) →
        o2.vertexGroups.map VGroup.name = o.vertexGroups.map VGroup.name ∧
        o2.name = o.name ∧ o2.numVertices = o.numVertices) ∧
      (∀ g2 o2, applyAllWeights o n entries c = Except.error (g2, o2) →
        o2.vertexGroups.map VGroup.name = o.vertexGroups.map VGroup.name ∧
        o2.name = o.name ∧ o2.numVertices = o.numVertices) := by
  intro entries
  induction entries with
  | nil =>
    intro o c
    constructor
    · intro o2 c2 h
      simp only [applyAllWeights, Except.ok.injEq, Prod.mk.injEq] at h
      rw [← h.1]
      exact ⟨rfl, rfl, rfl⟩
    · intro g2 o2 h
      simp only [applyAllWeights] at h
      cases h
  | cons e rest ih =>
    intro o c
    obtain ⟨v, gws⟩ := e
    by_cases hv : v < n
    · cases hav : applyVertexWeights o v gws c with
      | ok p =>
        obtain ⟨o1, c1⟩ := p
        have hstep : applyAllWeights o n ((v, gws) :: rest) c =
            applyAllWeights o1 n rest c1 := by
          simp only [applyAllWeights, if_pos hv, hav]
        have hf := (applyVertexWeights_frame v gws o c).1 o1 c1 hav
        constructor
        · intro o2 c2 h
          rw [hstep] at h
          have hr := (ih o1 c1).1 o2 c2 h
          exact ⟨hr.1.trans hf.1, hr.2.1.trans hf.2.1, hr.2.2.trans hf.2.2⟩
        · intro g2 o2 h
          rw [hstep] at h
          have hr := (ih o1 c1).2 g2 o2 h
          exact ⟨hr.1.trans hf.1, hr.2.1.trans hf.2.1, hr.2.2.trans hf.2.2⟩
      | error e2 =>
        obtain ⟨g1, o1⟩ := e2
        have hstep : applyAllWeights o n ((v, gws) :: rest) c =
            Except.error (g1, o1) := by
          simp only [applyAllWeights, if_pos hv, hav]
        have hf := (applyVertexWeights_frame v gws o c).2 g1 o1 hav
        constructor
        · intro o2 c2 h
          rw [hstep] at h
          cases h
        · intro g2 o2 h
          rw [hstep] at h
          simp only [Except.error.injEq, Prod.mk.injEq] at h
          rw [← h.2]
          exact hf
    · have hstep : applyAllWeights o n ((v, gws) :: rest) c =
          applyAllWeights o n rest c := by
        simp only [applyAllWeights, if_neg hv]
      constructor
      · intro o2 c2 h
        rw [hstep] at h
        exact (ih o c).1 o2 c2 h
      · intro g2 o2 h
        rw [hstep] at h
        exact (ih o c).2 g2 o2 h

theorem applyAllWeights_ok_char (n : Nat) :
    ∀ (entries : List (Nat × List (String × Weight))) (o : MeshObj) (c : Nat),
      (∀ e ∈ entries, e.1 < n → ∀ gw ∈ e.2, 0 < gw.2 →
        gw.1 ∈ o.vertexGroups.map VGroup.name) →
      (entries.map Prod.fst).Nodup →
      (∀ e ∈ entries, (e.2.map Prod.fst).Nodup) →
      ∃ o2, applyAllWeights o n entries c =
          Except.ok (o2, c + countApplied n entries) ∧
        ∀ gname v2, o2.weightOf gname v2 =
          match lookupD entries v2 with
          | some gws =>
            if v2 < n then
              match lookupD gws gname with
              | some w => if 0 < w then some w else o.weightOf gname v2
              | none => o.weightOf gname v2
            else o.weightOf gname v2
          | none => o.weightOf gname v2 := by
  intro entries
  induction entries with
  | nil =>
    intro o c _ _ _
    refine ⟨o, by simp [applyAllWeights, countApplied], ?_⟩
    intro gname v2
    simp [lookupD]
  | cons e rest ih =>
    intro o c href hknd hgnd
    obtain ⟨v, gws⟩ := e
    rw [List.map_cons, List.nodup_cons] at hknd
    have hcons : ∀ v2, lookupD ((v, gws) :: rest) v2 =
        if v == v2 then some gws else lookupD rest v2 := by
      intro v2
      rw [lookupD_cons]
    by_cases hv : v < n
    · obtain ⟨o1, heq1, hchar1⟩ := applyVertexWeights_ok_char v gws o c
        (fun gw hgw hpos => href (v, gws) (List.mem_cons_self _ _) hv gw hgw hpos)
        (hgnd (v, gws) (List.mem_cons_self _ _))
      have hnames1 : o1.vertexGroups.map VGroup.name =
          o.vertexGroups.map VGroup.name :=
        ((applyVertexWeights_frame v gws o c).1 o1 _ heq1).1
      have href2 : ∀ e ∈ rest, e.1 < n → ∀ gw ∈ e.2, 0 < gw.2 →
          gw.1 ∈ o1.vertexGroups.map VGroup.name := by
        intro e he hlt gw hgw hpos
        rw [hnames1]
        exact href e (List.mem_cons_of_mem _ he) hlt gw hgw hpos
      obtain ⟨o2, heq2, hchar2⟩ :=
        ih o1 (c + gws.countP (fun gw => decide (0 < gw.2))) href2 hknd.2
          (fun e he => hgnd e (List.mem_cons_of_mem _ he))
      refine ⟨o2, ?_, ?_⟩
      · have hstep : applyAllWeights o n ((v, gws) :: rest) c =
            applyAllWeights o1 n rest
              (c + gws.countP (fun gw => decide (0 < gw.2))) := by
          simp only [applyAllWeights, if_pos hv, heq1]
        rw [hstep, heq2]
        have hsum : c + gws.countP (fun gw => decide (0 < gw.2)) +
            countApplied n rest = c + countApplied n ((v, gws) :: rest) := by
          simp only [countApplied, if_pos hv]
          omega
        rw [hsum]
      · intro gname v2
        rw [hchar2 gname v2, hcons v2]
        by_cases hvv : v == v2
        · have hvv2 : v = v2 := eq_of_beq hvv
          subst hvv2
          rw [if_pos hvv]
          have hnone : lookupD rest v = none :=
            lookupD_eq_none_of_not_mem_keys hknd.1
          rw [hnone]
          simp only [hchar1 gname v, if_pos hv]
          cases hlk : lookupD gws gname with
          | none => rfl
          | some w => simp
        · rw [if_neg hvv]
          have hne : v2 ≠ v := fun he => hvv (by simp [he])
          have ho1w : o1.weightOf gname v2 = o.weightOf gname v2 := by
            rw [hchar1 gname v2]
            cases hlk : lookupD gws gname with
            | none => rfl
            | some w => simp [hne]
          cases hlk2 : lookupD rest v2 with
          | none => exact ho1w
          | some gws2 => simp only [ho1w]
    · have href2 : ∀ e ∈ rest, e.1 < n → ∀ gw ∈ e.2, 0 < gw.2 →
          gw.1 ∈ o.vertexGroups.map VGroup.name :=
        fun e he => href e (List.mem_cons_of_mem _ he)
      obtain ⟨o2, heq2, hchar2⟩ := ih o c href2 hknd.2
        (fun e he => hgnd e (List.mem_cons_of_mem _ he))
      refine ⟨o2, ?_, ?_⟩
      · have hstep : applyAllWeights o n ((v, gws) :: rest) c =
            applyAllWeights o n rest c := by
          simp only [applyAllWeights, if_neg hv]
        rw [hstep, heq2]
        have hsum : c + countApplied n rest =
            c + countApplied n ((v, gws) :: rest) := by
          simp only [countApplied, if_neg hv]
          omega
        rw [hsum]
      · intro gname v2
        rw [hchar2 gname v2, hcons v2]
        by_cases hvv : v == v2
        · have hvv2 : v = v2 := eq_of_beq hvv
          subst hvv2
          rw [if_pos hvv]
          have hnone : lookupD rest v = none :=
            lookupD_eq_none_of_not_mem_keys hknd.1
          rw [hnone]
          simp [hv]
        · rw [if_neg hvv]

theorem applyVertexWeights_ok_count (v : Nat) :
    ∀ (gws : List (String × Weight)) (o : MeshObj) (c : Nat) (o2 : MeshObj)
      (c2 : Nat), applyVertexWeights o v gws c = Except.ok (o2, c2) →
      c2 = c + gws.countP (fun gw => decide (0 < gw.2)) := by
  intro gws
  induction gws with
  | nil =>
    intro o c o2 c2 h
    simp only [applyVertexWeights, Except.ok.injEq, Prod.mk.injEq] at h
    simp [← h.2]
  | cons p rest ih =>
    intro o c o2 c2 h
    obtain ⟨gname0, w0⟩ := p
    by_cases h0 : 0 < w0
    · cases hap : applyGroupWeight o gname0 v w0 with
      | some o1 =>
        rw [show applyVertexWeights o v ((gname0, w0) :: rest) c =
            applyVertexWeights o1 v rest (c + 1) by
          simp only [applyVertexWeights, if_pos h0, hap]] at h
        have := ih o1 (c + 1) o2 c2 h
        rw [this]
        simp [List.countP_cons, h0]
        omega
      | none =>
        rw [show applyVertexWeights o v ((gname0, w0) :: rest) c =
            Except.error (gname0, o) by
          simp only [applyVertexWeights, if_pos h0, hap]] at h
        cases h
    · rw [show applyVertexWeights o v ((gname0, w0) :: rest) c =
          applyVertexWeights o v rest c by
        simp only [applyVertexWeights, if_neg h0]] at h
      have := ih o c o2 c2 h
      rw [this]
      simp [List.countP_cons, h0]

theorem applyAllWeights_ok_count (n : Nat) :
    ∀ (entries : List (Nat × List (String × Weight))) (o : MeshObj) (c : Nat)
      (o2 : MeshObj) (c2 : Nat),
      applyAllWeights o n entries c = Except.ok (o2, c2) →
      c2 = c + countApplied n entries := by
  intro entries
  induction entries with
  | nil =>
    intro o c o2 c2 h
    simp only [applyAllWeights, Except.ok.injEq, Prod.mk.injEq] at h
    simp [countApplied, ← h.2]
  | cons e rest ih =>
    intro o c o2 c2 h
    obtain ⟨v, gws⟩ := e
    by_cases hv : v < n
    · cases hav : applyVertexWeights o v gws c with
      | ok p =>
        obtain ⟨o1, c1⟩ := p
        rw [show applyAllWeights o n ((v, gws) :: rest) c =
            applyAllWeights o1 n rest c1 by
          simp only [applyAllWeights, if_pos hv, hav]] at h
        have h1 := applyVertexWeights_ok_count v gws o c o1 c1 hav
        have h2 := ih o1 c1 o2 c2 h
        rw [h2, h1]
        simp only [countApplied, if_pos hv]
        omega
      | error e2 =>
        rw [show applyAllWeights o n ((v, gws) :: rest) c =
            Except.error e2 by
          simp only [applyAllWeights, if_pos hv, hav]] at h
        cases h
    · rw [show applyAllWeights o n ((v, gws) :: rest) c =
          applyAllWeights o n rest c by
        simp only [applyAllWeights, if_neg hv]] at h
      have h2 := ih o c o2 c2 h
      rw [h2]
      simp only [countApplied, if_neg hv]
      omega

theorem applyVertexWeights_ok_refs (v : Nat) :
    ∀ (gws : List (String × Weight)) (o : MeshObj) (c : Nat) (o2 : MeshObj)
      (c2 : Nat), applyVertexWeights o v gws c = Except.ok (o2, c2) →
      ∀ gw ∈ gws, 0 < gw.2 → gw.1 ∈ o.vertexGroups.map VGroup.name := by
  intro gws
  induction gws with
  | nil => intro o c o2 c2 _ gw hgw; cases hgw
  | cons p rest ih =>
    intro o c o2 c2 h gw hgw hpos
    obtain ⟨gname0, w0⟩ := p
    by_cases h0 : 0 < w0
    · cases hap : applyGroupWeight o gname0 v w0 with
      | some o1 =>
        rw [show applyVertexWeights o v ((gname0, w0) :: rest) c =
            applyVertexWeights o1 v rest (c + 1) by
          simp only [applyVertexWeights, if_pos h0, hap]] at h
        rcases List.mem_cons.mp hgw with h1 | h1
        · subst h1
          by_cases hany : o.vertexGroups.any (fun g => g.name == gname0)
          · exact mem_of_any_name hany
          · rw [applyGroupWeight, if_neg hany] at hap
            cases hap
        · have := ih o1 (c + 1) o2 c2 h gw h1 hpos
          rwa [(applyGroupWeight_frame hap).1] at this
      | none =>
        rw [show applyVertexWeights o v ((gname0, w0) :: rest) c =
            Except.error (gname0, o) by
          simp only [applyVertexWeights, if_pos h0, hap]] at h
        cases h
    · rw [show applyVertexWeights o v ((gname0, w0) :: rest) c =
          applyVertexWeights o v rest c by
        simp only [applyVertexWeights, if_neg h0]] at h
      rcases List.mem_cons.mp hgw with h1 | h1
      · subst h1
        exact absurd hpos h0
      · exact ih o c o2 c2 h gw h1 hpos

theorem applyAllWeights_ok_refs (n : Nat) :
    ∀ (entries : List (Nat × List (String × Weight))) (o : MeshObj) (c : Nat)
      (o2 : MeshObj) (c2 : Nat),
      applyAllWeights o n entries c = Except.ok (o2, c2) →
      ∀ e ∈ entries, e.1 < n → ∀ gw ∈ e.2, 0 < gw.2 →
        gw.1 ∈ o.vertexGroups.map VGroup.name := by
  intro entries
  induction entries with
  | nil => intro o c o2 c2 _ e he; cases he
  | cons e0 rest ih =>
    intro o c o2 c2 h e he hlt gw hgw hpos
    obtain ⟨v, gws⟩ := e0
    by_cases hv : v < n
    · cases hav : applyVertexWeights o v gws c with
      | ok p =>
        obtain ⟨o1, c1⟩ := p
        rw [show applyAllWeights o n ((v, gws) :: rest) c =
            applyAllWeights o1 n rest c1 by
          simp only [applyAllWeights, if_pos hv, hav]] at h
        rcases List.mem_cons.mp he with h1 | h1
        · subst h1
          exact applyVertexWeights_ok_refs v gws o c o1 c1 hav gw hgw hpos
        · have := ih o1 c1 o2 c2 h e h1 hlt gw hgw hpos
          rwa [((applyVertexWeights_frame v gws o c).1 o1 c1 hav).1] at this
      | error e2 =>
        rw [show applyAllWeights o n ((v, gws) :: rest) c =
            Except.error e2 by
          simp only [applyAllWeights, if_pos hv, hav]] at h
        cases h
    · rw [show applyAllWeights o n ((v, gws) :: rest) c =
          applyAllWeights o n rest c by
        simp only [applyAllWeights, if_neg hv]] at h
      rcases List.mem_cons.mp he with h1 | h1
      · subst h1
        exact absurd hlt hv
      · exact ih o c o2 c2 h e h1 hlt gw hgw hpos

theorem createGroups_cons (o : MeshObj) (gname : String) (rest : List String) :
    createGroups o (gname :: rest) =
      createGroups
        (if o.vertexGroups.any (fun g => g.name == gname) then o
         else { o with vertexGroups := o.vertexGroups ++ [⟨gname, []⟩] })
        rest := by
  simp only [createGroups, List.foldl_cons]

theorem createGroups_fields (names : List String) :
    ∀ o : MeshObj, (createGroups o names).name = o.name ∧
      (createGroups o names).numVertices = o.numVertices := by
  induction names with
  | nil => exact fun o => ⟨rfl, rfl⟩
  | cons gname rest ih =>
    intro o
    rw [createGroups_cons]
    by_cases hc : o.vertexGroups.any (fun g => g.name == gname)
    · rw [if_pos hc]
      exact ih o
    · rw [if_neg hc]
      exact ih { o with vertexGroups := o.vertexGroups ++ [⟨gname, []⟩] }

theorem createGroups_weights_empty (names : List String) :
    ∀ o : MeshObj, (∀ g ∈ o.vertexGroups, g.weights = []) →
      ∀ g ∈ (createGroups o names).vertexGroups, g.weights = [] := by
  induction names with
  | nil => exact fun o h => h
  | cons gname rest ih =>
    intro o h
    rw [createGroups_cons]
    by_cases hc : o.vertexGroups.any (fun g => g.name == gname)
    · rw [if_pos hc]
      exact ih o h
    · rw [if_neg hc]
      refine ih _ ?_
      intro g hg
      rcases List.mem_append.mp hg with h1 | h1
      · exact h g h1
      · rw [List.mem_singleton] at h1
        rw [h1]

theorem createGroups_names_mem (names : List String) :
    ∀ (o : MeshObj) (a : String),
      a ∈ (createGroups o names).vertexGroups.map VGroup.name ↔
        a ∈ o.vertexGroups.map VGroup.name ∨ a ∈ names := by
  induction names with
  | nil => intro o a; simp [createGroups]
  | cons gname rest ih =>
    intro o a
    rw [createGroups_cons]
    by_cases hc : o.vertexGroups.any (fun g => g.name == gname)
    · rw [if_pos hc, ih o a]
      constructor
      · rintro (h | h)
        · exact Or.inl h
        · exact Or.inr (List.mem_cons_of_mem _ h)
      · rintro (h | h)
        · exact Or.inl h
        · rcases List.mem_cons.mp h with h1 | h1
          · exact Or.inl (h1 ▸ mem_of_any_name hc)
          · exact Or.inr h1
    · rw [if_neg hc, ih _ a]
      have hm : a ∈ ({ o with
          vertexGroups := o.vertexGroups ++ [⟨gname, []⟩] } :
            MeshObj).vertexGroups.map VGroup.name ↔
          a ∈ o.vertexGroups.map VGroup.name ∨ a = gname := by
        simp
      rw [hm]
      simp only [List.mem_cons]
      tauto

theorem groupsWeight_of_all_empty {gs : List VGroup}
    (h : ∀ g ∈ gs, g.weights = []) (gname : String) (v : Nat) :
    groupsWeight gs gname v = none := by
  rw [groupsWeight]
  cases hf : gs.find? (fun g => g.name == gname) with
  | none => rfl
  | some g =>
    have hg := List.mem_of_find?_eq_some hf
    simp [VGroup.weightAt, h g hg, lookupD]

theorem load_weights_mismatch {obj : MeshObj} {doc : WeightDocument}
    (h : obj.numVertices ≠ doc.vertex_count) :
    load_weights obj doc =
      (LoadResult.vertexCountMismatch doc.vertex_count obj.numVertices, obj) := by
  rw [load_weights, if_pos h]

theorem load_weights_eq (obj : MeshObj) (doc : WeightDocument)
    (h : obj.numVertices = doc.vertex_count) :
    load_weights obj doc =
      match applyAllWeights (createGroups (clearGroups obj) doc.group_names)
          obj.numVertices doc.vertex_groups 0 with
      | Except.ok (o3, affected) => (LoadResult.ok affected, o3)
      | Except.error (gname, o3) => (LoadResult.loadError gname, o3) := by
  rw [load_weights, if_neg (by simp [h])]

/-- C8: for a mesh with 3 vertices and one group "Arm" in which vertex 0 has
weight 0.5 and vertices 1 and 2 have no nonzero weight, save_weights
produces a document whose vertex_groups map is exactly {"0": {"Arm": 0.5}}
and whose validation.weight_range is [0.5, 0.5]. -/
theorem c8_save_example :
    (buildDocument armMesh).vertex_groups = [(0, [("Arm", (0.5 : ℚ))])] ∧
    (buildDocument armMesh).validation.weight_range = ((0.5 : ℚ), (0.5 : ℚ)) := by
  rw [← halfVal_eq]
  decide

/-- C2: importing a document whose recorded vertex_count differs from the
mesh's current vertex count reports the vertex-count mismatch and returns
the mesh completely unmodified — no group removed, created or reweighted. -/
theorem c2_mismatch_no_mutation (obj : MeshObj) (doc : WeightDocument)
    (h : obj.numVertices ≠ doc.vertex_count) :
    load_weights obj doc =
      (LoadResult.vertexCountMismatch doc.vertex_count obj.numVertices, obj) :=
  load_weights_mismatch h

theorem c2_mismatch_no_mutation_witness :
    armMesh.numVertices ≠ twoGroupDoc.vertex_count ∧
    load_weights armMesh twoGroupDoc =
      (LoadResult.vertexCountMismatch twoGroupDoc.vertex_count
        armMesh.numVertices, armMesh) :=
  ⟨by decide, c2_mismatch_no_mutation armMesh twoGroupDoc (by decide)⟩

/-- C5: running load_weights a second time with the same document, starting
from the mesh state the first run produced, gives exactly the same outcome
and the same final mesh state as the first run. -/
theorem c5_load_idempotent (obj : MeshObj) (doc : WeightDocument) :
    load_weights ((load_weights obj doc).2) doc = load_weights obj doc := by
  by_cases h : obj.numVertices ≠ doc.vertex_count
  · rw [load_weights_mismatch h]
    exact load_weights_mismatch h
  · have he : obj.numVertices = doc.vertex_count := not_not.mp h
    have hbasefields :=
      createGroups_fields doc.group_names (clearGroups obj)
    cases haa : applyAllWeights (createGroups (clearGroups obj) doc.group_names)
        obj.numVertices doc.vertex_groups 0 with
    | ok p =>
      obtain ⟨o3, a⟩ := p
      have h1 : load_weights obj doc = (LoadResult.ok a, o3) := by
        rw [load_weights_eq obj doc he, haa]
      have hf := (applyAllWeights_frame obj.numVertices doc.vertex_groups
        (createGroups (clearGroups obj) doc.group_names) 0).1 o3 a haa
      have hname3 : o3.name = obj.name := hf.2.1.trans hbasefields.1
      have hnum3 : o3.numVertices = obj.numVertices := hf.2.2.trans hbasefields.2
      rw [h1]
      have hclear : clearGroups o3 = clearGroups obj := by
        simp [clearGroups, hname3, hnum3]
      rw [load_weights_eq o3 doc (hnum3.trans he), hclear, hnum3, haa]
    | error e2 =>
      obtain ⟨g, o3⟩ := e2
      have h1 : load_weights obj doc = (LoadResult.loadError g, o3) := by
        rw [load_weights_eq obj doc he, haa]
      have hf := (applyAllWeights_frame obj.numVertices doc.vertex_groups
        (createGroups (clearGroups obj) doc.group_names) 0).2 g o3 haa
      have hname3 : o3.name = obj.name := hf.2.1.trans hbasefields.1
      have hnum3 : o3.numVertices = obj.numVertices := hf.2.2.trans hbasefields.2
      rw [h1]
      have hclear : clearGroups o3 = clearGroups obj := by
        simp [clearGroups, hname3, hnum3]
      rw [load_weights_eq o3 doc (hnum3.trans he), hclear, hnum3, haa]

/-- C9: the Save operator updates the settings to the chosen path and marks
syncing active exactly when save_weights succeeds, reporting success; when
save_weights fails it reports the error and leaves both settings fields
unchanged. -/
theorem c9_save_operator (settings : WeightSyncSettings) (obj : Option MeshObj)
    (filepath : String) (ioError : Option String) :
    (∀ doc, save_weights obj ioError = Except.ok doc →
      save_execute settings obj filepath ioError =
        ({ weight_file := filepath, is_active := true },
         Report.info ("Weights saved to " ++ filepath))) ∧
    (∀ e, save_weights obj ioError = Except.error e →
      save_execute settings obj filepath ioError =
        (settings, Report.error e)) := by
  constructor
  · intro doc h
    simp only [save_execute, h]
  · intro e h
    simp only [save_execute, h]

theorem c9_save_operator_witness :
    save_execute settings0 (some oneVertexMesh) "weights.json" none =
      ({ weight_file := "weights.json", is_active := true },
       Report.info ("Weights saved to " ++ "weights.json")) ∧
    save_execute settings0 none "weights.json" none =
      (settings0, Report.error "No valid mesh selected") :=
  ⟨(c9_save_operator settings0 (some oneVertexMesh) "weights.json" none).1
      (buildDocument oneVertexMesh) rfl,
   (c9_save_operator settings0 none "weights.json" none).2
      "No valid mesh selected" rfl⟩

/-- C7 counterexample: on a 1-vertex mesh and a document assigning two
groups to vertex 0, load_weights reports 2 as the vertices-affected count,
while only 1 distinct vertex carries any weight afterwards — the counter
counts weight assignments, not distinct vertices, refuting the claim. -/
theorem c7_count_counterexample :
    (load_weights oneVertexMesh twoGroupDoc).1 = LoadResult.ok 2 ∧
    touchedCount ((load_weights oneVertexMesh twoGroupDoc).2) = 1 := by
  decide

/-- C10 counterexample: ghostSkipDoc passes the vertex-count check and its
vertex_groups map references the group "Ghost", which is not listed in
group_names, yet load_weights succeeds (the entry sits at an out-of-bounds
vertex index and is skipped before the group lookup), refuting the claim
that such a document always produces a load error. -/
theorem c10_counterexample :
    oneVertexMesh.numVertices = ghostSkipDoc.vertex_count ∧
    (∃ e ∈ ghostSkipDoc.vertex_groups, ∃ gw ∈ e.2,
      gw.1 ∉ ghostSkipDoc.group_names) ∧
    (load_weights oneVertexMesh ghostSkipDoc).1 = LoadResult.ok 0 := by
  refine ⟨by decide, ⟨(5, [("Ghost", 1)]), by decide, ("Ghost", 1),
    by decide, by decide⟩, by decide⟩

/-- C3: every weight value stored in the document produced by save_weights
is strictly greater than 0.0, and a vertex all of whose readable weights are
nonpositive (or absent) in every group never appears as a key of the
document's vertex_groups map. -/
theorem c3_document_invariants (obj : MeshObj) :
    (∀ e ∈ (buildDocument obj).vertex_groups, ∀ gw ∈ e.2, 0 < gw.2) ∧
    (∀ v, (∀ g ∈ obj.vertexGroups, ∀ w, g.weightAt v = some w → w ≤ 0) →
      ∀ gws, (v, gws) ∉ (buildDocument obj).vertex_groups) := by
  constructor
  · intro e he gw hgw
    have hm := mem_collectVertexGroups.mp he
    rw [hm.2.1] at hgw
    exact vertexWeightsAux_pos e.1 obj.vertexGroups [] (by intro p hp; cases hp)
      gw hgw
  · intro v hzero gws hmem
    have hm := mem_collectVertexGroups.mp hmem
    have hempty : vertexWeights obj v = [] := by
      rw [vertexWeights]
      exact vertexWeightsAux_of_no_pos v obj.vertexGroups []
        (fun g hg w hw => not_lt.mpr (hzero g hg w hw))
    rw [hempty] at hm
    exact hm.2.2 hm.2.1

theorem c3_document_invariants_witness :
    (0 : ℚ) < halfVal ∧
    ∀ gws, (1, gws) ∉ (buildDocument armMesh).vertex_groups := by
  constructor
  · exact (c3_document_invariants armMesh).1 (0, [("Arm", halfVal)]) (by decide)
      ("Arm", halfVal) (by decide)
  · refine (c3_document_invariants armMesh).2 1 ?_
    intro g hg w hw
    rw [show armMesh.vertexGroups = [⟨"Arm", [(0, halfVal), (1, 0)]⟩] from rfl,
      List.mem_singleton] at hg
    subst hg
    have hval : (VGroup.mk "Arm" [(0, halfVal), (1, 0)]).weightAt 1 = some 0 := by
      decide
    rw [hval] at hw
    injection hw with hw2
    rw [← hw2]

/-- C4: after a successful load_weights, the object's vertex groups are
exactly those named in the document's group_names — every group that
existed before the import is gone unless the document names it. -/
theorem c4_destructive_overwrite (obj : MeshObj) (doc : WeightDocument)
    (k : Nat) (hok : (load_weights obj doc).1 = LoadResult.ok k) :
    ∀ name, name ∈ ((load_weights obj doc).2).vertexGroups.map VGroup.name ↔
      name ∈ doc.group_names := by
  intro name
  by_cases h : obj.numVertices ≠ doc.vertex_count
  · rw [load_weights_mismatch h] at hok
    cases hok
  · have he : obj.numVertices = doc.vertex_count := not_not.mp h
    cases haa : applyAllWeights (createGroups (clearGroups obj) doc.group_names)
        obj.numVertices doc.vertex_groups 0 with
    | ok p =>
      obtain ⟨o3, a⟩ := p
      have h1 : load_weights obj doc = (LoadResult.ok a, o3) := by
        rw [load_weights_eq obj doc he, haa]
      rw [h1]
      have hf := (applyAllWeights_frame obj.numVertices doc.vertex_groups
        (createGroups (clearGroups obj) doc.group_names) 0).1 o3 a haa
      have hn := createGroups_names_mem doc.group_names (clearGroups obj) name
      rw [show (clearGroups obj).vertexGroups = [] from rfl] at hn
      simp only [List.map_nil, List.not_mem_nil, false_or] at hn
      rw [← hn]
      rw [hf.1]
    | error e2 =>
      obtain ⟨g, o3⟩ := e2
      have h1 : load_weights obj doc = (LoadResult.loadError g, o3) := by
        rw [load_weights_eq obj doc he, haa]
      rw [h1] at hok
      cases hok

theorem c4_destructive_overwrite_witness :
    ("A" ∈ ((load_weights oneVertexMesh twoGroupDoc).2).vertexGroups.map
        VGroup.name ↔ "A" ∈ twoGroupDoc.group_names) ∧
    ("Old" ∈ ((load_weights oneVertexMesh twoGroupDoc).2).vertexGroups.map
        VGroup.name ↔ "Old" ∈ twoGroupDoc.group_names) := by
  have h := c4_destructive_overwrite oneVertexMesh twoGroupDoc 2 (by decide)
  exact ⟨h "A", h "Old"⟩

/-- C7 (amended): the vertices_affected count a successful load_weights
reports equals the number of (vertex, group) weight applications performed —
one per positive-weight pair at an in-bounds vertex index — not the number
of distinct vertices touched. -/
theorem c7_count_applications (obj : MeshObj) (doc : WeightDocument) (k : Nat)
    (hok : (load_weights obj doc).1 = LoadResult.ok k) :
    k = countApplied obj.numVertices doc.vertex_groups := by
  by_cases h : obj.numVertices ≠ doc.vertex_count
  · rw [load_weights_mismatch h] at hok
    cases hok
  · have he : obj.numVertices = doc.vertex_count := not_not.mp h
    cases haa : applyAllWeights (createGroups (clearGroups obj) doc.group_names)
        obj.numVertices doc.vertex_groups 0 with
    | ok p =>
      obtain ⟨o3, a⟩ := p
      have h1 : load_weights obj doc = (LoadResult.ok a, o3) := by
        rw [load_weights_eq obj doc he, haa]
      rw [h1] at hok
      have hka : a = k := by
        have h2 : LoadResult.ok a = LoadResult.ok k := hok
        injection h2
      have := applyAllWeights_ok_count obj.numVertices doc.vertex_groups
        (createGroups (clearGroups obj) doc.group_names) 0 o3 a haa
      rw [← hka, this]
      omega
    | error e2 =>
      obtain ⟨g, o3⟩ := e2
      have h1 : load_weights obj doc = (LoadResult.loadError g, o3) := by
        rw [load_weights_eq obj doc he, haa]
      rw [h1] at hok
      cases hok

theorem c7_count_applications_witness :
    (load_weights oneVertexMesh twoGroupDoc).1 = LoadResult.ok 2 ∧
    countApplied oneVertexMesh.numVertices twoGroupDoc.vertex_groups = 2 :=
  ⟨by decide,
   (c7_count_applications oneVertexMesh twoGroupDoc 2 (by decide)).symm⟩

/-- C10 (amended): a document that passes the vertex-count check and whose
vertex_groups map references, at an in-bounds vertex index and with positive
weight, a group name not listed in group_names makes load_weights return a
load error, and by that time the object's original vertex groups have been
removed and the document's groups created: the final group names are exactly
those of group_names. -/
theorem c10_failure_after_mutation (obj : MeshObj) (doc : WeightDocument)
    (hcount : doc.vertex_count = obj.numVertices)
    (hbad : ∃ e ∈ doc.vertex_groups, e.1 < obj.numVertices ∧
      ∃ gw ∈ e.2, 0 < gw.2 ∧ gw.1 ∉ doc.group_names) :
    (∃ g, (load_weights obj doc).1 = LoadResult.loadError g) ∧
    ∀ name, name ∈ ((load_weights obj doc).2).vertexGroups.map VGroup.name ↔
      name ∈ doc.group_names := by
  have he : obj.numVertices = doc.vertex_count := hcount.symm
  have hbname : ∀ a, a ∈ (createGroups (clearGroups obj)
      doc.group_names).vertexGroups.map VGroup.name ↔ a ∈ doc.group_names := by
    intro a
    have hn := createGroups_names_mem doc.group_names (clearGroups obj) a
    rw [show (clearGroups obj).vertexGroups = [] from rfl] at hn
    simpa using hn
  cases haa : applyAllWeights (createGroups (clearGroups obj) doc.group_names)
      obj.numVertices doc.vertex_groups 0 with
  | ok p =>
    obtain ⟨o3, a⟩ := p
    exfalso
    obtain ⟨e, he2, hlt, gw, hgw, hpos, hnot⟩ := hbad
    have := applyAllWeights_ok_refs obj.numVertices doc.vertex_groups
      (createGroups (clearGroups obj) doc.group_names) 0 o3 a haa e he2 hlt
      gw hgw hpos
    exact hnot ((hbname gw.1).mp this)
  | error e2 =>
    obtain ⟨g, o3⟩ := e2
    have h1 : load_weights obj doc = (LoadResult.loadError g, o3) := by
      rw [load_weights_eq obj doc he, haa]
    rw [h1]
    have hf := (applyAllWeights_frame obj.numVertices doc.vertex_groups
      (createGroups (clearGroups obj) doc.group_names) 0).2 g o3 haa
    refine ⟨⟨g, rfl⟩, ?_⟩
    intro name
    rw [show ((LoadResult.loadError g, o3) : LoadResult × MeshObj).2 = o3
      from rfl, hf.1]
    exact hbname name

theorem c10_failure_after_mutation_witness :
    (∃ g, (load_weights oneVertexMesh ghostHitDoc).1 =
      LoadResult.loadError g) ∧
    ("A" ∈ ((load_weights oneVertexMesh ghostHitDoc).2).vertexGroups.map
        VGroup.name ↔ "A" ∈ ghostHitDoc.group_names) ∧
    ("Old" ∈ ((load_weights oneVertexMesh ghostHitDoc).2).vertexGroups.map
        VGroup.name ↔ "Old" ∈ ghostHitDoc.group_names) := by
  have h := c10_failure_after_mutation oneVertexMesh ghostHitDoc (by decide)
    ⟨(0, [("Ghost", 1)]), by decide, by decide, ("Ghost", 1), by decide,
     by decide, by decide⟩
  exact ⟨h.1, h.2 "A", h.2 "Old"⟩

/-- C6: a document that passes the vertex-count check loads successfully
even when some of its vertex indices are out of bounds (provided its
in-bounds entries reference declared groups and its dicts are well-formed):
out-of-bounds entries are skipped without applying any weight and without
an error, while every in-bounds positive-weight entry is applied. -/
theorem c6_oob_skipped (obj : MeshObj) (doc : WeightDocument)
    (hcount : doc.vertex_count = obj.numVertices)
    (href : ∀ e ∈ doc.vertex_groups, e.1 < obj.numVertices →
      ∀ gw ∈ e.2, 0 < gw.2 → gw.1 ∈ doc.group_names)
    (hknd : (doc.vertex_groups.map Prod.fst).Nodup)
    (hgnd : ∀ e ∈ doc.vertex_groups, (e.2.map Prod.fst).Nodup) :
    ∃ k, (load_weights obj doc).1 = LoadResult.ok k ∧
      (∀ gname v, obj.numVertices ≤ v →
        ((load_weights obj doc).2).weightOf gname v = none) ∧
      (∀ e ∈ doc.vertex_groups, e.1 < obj.numVertices →
        ∀ gname w, lookupD e.2 gname = some w → 0 < w →
          ((load_weights obj doc).2).weightOf gname e.1 = some w) := by
  have he : obj.numVertices = doc.vertex_count := hcount.symm
  have hbname : ∀ a, a ∈ (createGroups (clearGroups obj)
      doc.group_names).vertexGroups.map VGroup.name ↔
        a ∈ doc.group_names := by
    intro a
    have hn := createGroups_names_mem doc.group_names (clearGroups obj) a
    rw [show (clearGroups obj).vertexGroups = [] from rfl] at hn
    simpa using hn
  have hbw : ∀ gname v, (createGroups (clearGroups obj)
      doc.group_names).weightOf gname v = none := by
    intro gname v
    exact groupsWeight_of_all_empty
      (createGroups_weights_empty doc.group_names (clearGroups obj)
        (by intro g hg; cases hg)) gname v
  obtain ⟨o2, heq, hchar⟩ := applyAllWeights_ok_char obj.numVertices
    doc.vertex_groups (createGroups (clearGroups obj) doc.group_names) 0
    (fun e he2 hlt gw hgw hpos =>
      (hbname gw.1).mpr (href e he2 hlt gw hgw hpos)) hknd hgnd
  have h1 : load_weights obj doc =
      (LoadResult.ok (0 + countApplied obj.numVertices doc.vertex_groups),
       o2) := by
    rw [load_weights_eq obj doc he, heq]
  refine ⟨0 + countApplied obj.numVertices doc.vertex_groups,
    by rw [h1], ?_, ?_⟩
  · intro gname v hv
    rw [h1]
    show o2.weightOf gname v = none
    rw [hchar gname v]
    cases hlk : lookupD doc.vertex_groups v with
    | none => exact hbw gname v
    | some gws =>
      have hnlt : ¬ v < obj.numVertices := not_lt.mpr hv
      simp [hnlt, hbw gname v]
  · intro e he2 hlt gname w hlk hpos
    rw [h1]
    show o2.weightOf gname e.1 = some w
    have hlke : lookupD doc.vertex_groups e.1 = some e.2 :=
      lookupD_of_mem_nodup hknd he2
    rw [hchar gname e.1, hlke]
    simp [hlt, hlk, hpos]

theorem c6_oob_skipped_witness :
    (∃ k, (load_weights twoVertexMesh oobDoc).1 = LoadResult.ok k) ∧
    ((load_weights twoVertexMesh oobDoc).2).weightOf "A" 5 = none ∧
    ((load_weights twoVertexMesh oobDoc).2).weightOf "A" 0 = some 1 := by
  obtain ⟨k, h1, h2, h3⟩ := c6_oob_skipped twoVertexMesh oobDoc (by decide)
    (by decide) (by decide) (by decide)
  exact ⟨⟨k, h1⟩, h2 "A" 5 (by decide),
    h3 (0, [("A", 1)]) (by decide) (by decide) "A" 1 (by decide) (by decide)⟩

/-- C1: saving a mesh's weights and importing the document into a mesh of
identical vertex count succeeds, reproduces exactly the weight of every
vertex/group pair whose original weight is strictly positive, and leaves
every pair whose original weight is nonpositive absent both from the
document and from the resulting mesh.  The hypotheses are the host's
invariants: vertex-group names are unique on an object and stored weight
entries refer to existing vertices. -/
theorem c1_round_trip (obj obj2 : MeshObj)
    (hnames : (obj.vertexGroups.map VGroup.name).Nodup)
    (hwf : ∀ g ∈ obj.vertexGroups, ∀ p ∈ g.weights, p.1 < obj.numVertices)
    (hn : obj2.numVertices = obj.numVertices) :
    (∃ k, (load_weights obj2 (buildDocument obj)).1 = LoadResult.ok k) ∧
    (∀ gname v w, obj.weightOf gname v = some w → 0 < w →
      (buildDocument obj).weightOf gname v = some w ∧
      ((load_weights obj2 (buildDocument obj)).2).weightOf gname v = some w) ∧
    (∀ gname v w, obj.weightOf gname v = some w → w ≤ 0 →
      (buildDocument obj).weightOf gname v = none ∧
      ((load_weights obj2 (buildDocument obj)).2).weightOf gname v = none) := by
  have hdv : (buildDocument obj).vertex_groups = collectVertexGroups obj := rfl
  have hdn : (buildDocument obj).group_names =
      obj.vertexGroups.map VGroup.name := rfl
  have he : obj2.numVertices = (buildDocument obj).vertex_count := hn
  have hbname : ∀ a, a ∈ (createGroups (clearGroups obj2)
      (buildDocument obj).group_names).vertexGroups.map VGroup.name ↔
        a ∈ (buildDocument obj).group_names := by
    intro a
    have h2 := createGroups_names_mem (buildDocument obj).group_names
      (clearGroups obj2) a
    rw [show (clearGroups obj2).vertexGroups = [] from rfl] at h2
    simpa using h2
  have hbw : ∀ gname v, (createGroups (clearGroups obj2)
      (buildDocument obj).group_names).weightOf gname v = none := by
    intro gname v
    exact groupsWeight_of_all_empty
      (createGroups_weights_empty (buildDocument obj).group_names
        (clearGroups obj2) (by intro g hg; cases hg)) gname v
  have hknd : ((buildDocument obj).vertex_groups.map Prod.fst).Nodup := by
    rw [hdv]
    exact collectVertexGroups_keys_nodup obj
  have hgnd : ∀ e ∈ (buildDocument obj).vertex_groups,
      (e.2.map Prod.fst).Nodup := by
    intro e he2
    rw [hdv] at he2
    have hm := mem_collectVertexGroups.mp he2
    rw [hm.2.1]
    exact vertexWeightsAux_nodup e.1 obj.vertexGroups [] (by simp)
  have hrefs : ∀ e ∈ (buildDocument obj).vertex_groups,
      e.1 < obj2.numVertices → ∀ gw ∈ e.2, 0 < gw.2 →
      gw.1 ∈ (createGroups (clearGroups obj2)
        (buildDocument obj).group_names).vertexGroups.map VGroup.name := by
    intro e he2 _ gw hgw _
    rw [hdv] at he2
    have hm := mem_collectVertexGroups.mp he2
    have hkey : gw.1 ∈ e.2.map Prod.fst := List.mem_map.mpr ⟨gw, hgw, rfl⟩
    rw [hm.2.1] at hkey
    rcases vertexWeightsAux_keys e.1 obj.vertexGroups [] gw.1 hkey with h | h
    · simp at h
    · exact (hbname gw.1).mpr (by rw [hdn]; exact h)
  obtain ⟨o2, heq, hchar⟩ := applyAllWeights_ok_char obj2.numVertices
    (buildDocument obj).vertex_groups
    (createGroups (clearGroups obj2) (buildDocument obj).group_names) 0
    hrefs hknd hgnd
  have h1 : load_weights obj2 (buildDocument obj) =
      (LoadResult.ok (0 + countApplied obj2.numVertices
        (buildDocument obj).vertex_groups), o2) := by
    rw [load_weights_eq obj2 (buildDocument obj) he, heq]
  refine ⟨⟨0 + countApplied obj2.numVertices
    (buildDocument obj).vertex_groups, by rw [h1]⟩, ?_, ?_⟩
  · intro gname v w hwo hpos
    have hvlt : v < obj.numVertices := by
      rw [MeshObj.weightOf, groupsWeight] at hwo
      cases hf : obj.vertexGroups.find? (fun g => g.name == gname) with
      | none => rw [hf] at hwo; cases hwo
      | some g =>
        rw [hf] at hwo
        have hg := List.mem_of_find?_eq_some hf
        have hwo2 : lookupD g.weights v = some w := hwo
        exact hwf g hg (v, w) (lookupD_eq_some_mem hwo2)
    have hlkvw : lookupD (vertexWeights obj v) gname = some w := by
      rw [lookupD_vertexWeights obj v gname hnames, hwo]
      simp [hpos]
    have hne : vertexWeights obj v ≠ [] := by
      intro hc
      rw [hc] at hlkvw
      simp [lookupD] at hlkvw
    have hmem : (v, vertexWeights obj v) ∈ collectVertexGroups obj :=
      mem_collectVertexGroups.mpr ⟨hvlt, rfl, hne⟩
    have hlke : lookupD (collectVertexGroups obj) v =
        some (vertexWeights obj v) :=
      lookupD_of_mem_nodup (collectVertexGroups_keys_nodup obj) hmem
    constructor
    · rw [WeightDocument.weightOf, hdv, hlke]
      exact hlkvw
    · rw [h1]
      show o2.weightOf gname v = some w
      rw [hchar gname v, hdv, hlke]
      have hvlt2 : v < obj2.numVertices := by omega
      simp [hvlt2, hlkvw, hpos]
  · intro gname v w hwo hle
    have hnpos : ¬ 0 < w := not_lt.mpr hle
    have hlknone : lookupD (vertexWeights obj v) gname = none := by
      rw [lookupD_vertexWeights obj v gname hnames, hwo]
      simp [hnpos]
    constructor
    · rw [WeightDocument.weightOf, hdv]
      cases hlkE : lookupD (collectVertexGroups obj) v with
      | none => rfl
      | some gws =>
        have hm := mem_collectVertexGroups.mp (lookupD_eq_some_mem hlkE)
        obtain ⟨hlt2, heq2, hne2⟩ := hm
        simp only at heq2
        show lookupD gws gname = none
        rw [heq2]
        exact hlknone
    · rw [h1]
      show o2.weightOf gname v = none
      rw [hchar gname v, hdv]
      cases hlkE : lookupD (collectVertexGroups obj) v with
      | none => exact hbw gname v
      | some gws =>
        have hm := mem_collectVertexGroups.mp (lookupD_eq_some_mem hlkE)
        obtain ⟨hlt2, heq2, hne2⟩ := hm
        simp only at heq2
        by_cases hv2 : v < obj2.numVertices
        · simp [hv2, heq2, hlknone, hbw gname v]
        · simp [hv2, hbw gname v]

theorem c1_round_trip_witness :
    (∃ k, (load_weights armTarget (buildDocument armMesh)).1 =
      LoadResult.ok k) ∧
    (buildDocument armMesh).weightOf "Arm" 0 = some halfVal ∧
    ((load_weights armTarget (buildDocument armMesh)).2).weightOf "Arm" 0 =
      some halfVal ∧
    (buildDocument armMesh).weightOf "Arm" 1 = none ∧
    ((load_weights armTarget (buildDocument armMesh)).2).weightOf "Arm" 1 =
      none := by
  obtain ⟨h1, h2, h3⟩ := c1_round_trip armMesh armTarget (by decide)
    (by decide) (by decide)
  obtain ⟨h4, h5⟩ := h2 "Arm" 0 halfVal (by decide) (by decide)
  obtain ⟨h6, h7⟩ := h3 "Arm" 1 0 (by decide) (by decide)
  exact ⟨h1, h4, h5, h6, h7⟩
